import Mathlib

/-!
# Verification of the internship-discord-bot core

Shallow embedding of the repository's core components and proofs of the
spec's claims about them:

* the change detector `checkForUpdates` and its seen-set state
  (`src/github-monitor.js`),
* the listing-id derivation (`parseInternshipListings`, line 106 of
  `src/github-monitor.js`),
* the points ledger `completeTask` / `uncompleteTask` / `updateStreak`
  (the database module, `src/unnamed/part_001`),
* the leaderboard `getLeaderboard` (`src/gamification.js`),
* the team operations `createTeam` / `addUserToTeam` / `removeUserFromTeam`
  (the database module).

Asynchronous I/O is modelled by explicit state passing: each JS function
that reads and writes the JSON data files becomes a pure function from the
loaded state to the saved state.  Machine-level JS numbers are modelled as
`Int` (all the values involved are small integers), calendar-date strings
("YYYY-MM-DD" at UTC midnight) as integer day numbers, and wall-clock
timestamps (`createdAt`, `completedAt`) are not modelled — no claim
depends on them.
-/

namespace InternBot

/-! ## Change detector (`src/github-monitor.js`) — definitions -/

/-- A parsed internship listing, as produced by `parseInternshipListings`
(`src/github-monitor.js`, lines 98–107).  Only the `id` field drives change
detection; the remaining fields are carried for fidelity to the record
pushed by the parser. -/
structure Listing where
  company : String
  role : String
  location : String
  applyLink : String
  age : String
  category : String
  emoji : String
  id : String
deriving DecidableEq

/-- The change detector's module-level state in `src/github-monitor.js`:
`lastKnownListings` (line 13, the in-memory SeenSet, field `seen`), the
contents of `data/seen-listings.json` as written by `saveSeenListings`
(lines 145–155, field `persisted`), and the `isInitialized` flag (line 14,
field `initDone`). -/
structure MonitorState where
  seen : Finset String
  persisted : Finset String
  initDone : Bool
deriving DecidableEq

/-- The steady-state diff of `checkForUpdates` (lines 285–288):
`currentListings.filter(listing => !lastKnownListings.has(getListingId(listing)))`. -/
def newOf (st : MonitorState) (current : List Listing) : List Listing :=
  current.filter (fun l => l.id ∉ st.seen)

/-- One poll cycle: `checkForUpdates` in `src/github-monitor.js`, lines
263–307.  The argument `fetched` is the combined outcome of `fetchReadme`
and `parseInternshipListings`: `none` models a thrown fetch error, which the
surrounding `try`/`catch` (lines 264, 304–306) turns into a logged no-op
cycle; `some L` is the parsed listing sequence.  The result pairs the
listings handed to the notification sink (`sendNewListings`, called once
with the new listings in parse order) with the state after the cycle.
On the first run (lines 272–282) all parsed ids are added to the set, the
set is saved, and nothing is notified; afterwards (lines 284–303) the
listings whose id is not in the set are notified, their ids added, and the
set saved — or nothing happens when there are none. -/
def checkForUpdates (st : MonitorState) (fetched : Option (List Listing)) :
    List Listing × MonitorState :=
  match fetched with
  | none => ([], st)
  | some current =>
    if !st.initDone then
      let seen' := current.foldl (fun s l => insert l.id s) st.seen
      ([], { seen := seen', persisted := seen', initDone := true })
    else
      let newListings := newOf st current
      if newListings.isEmpty then ([], st)
      else
        let seen' := newListings.foldl (fun s l => insert l.id s) st.seen
        (newListings, { st with seen := seen', persisted := seen' })

/-- A process restart: the module-level variables reset to their initial
values (lines 13–14) and `monitorRepository` (lines 227–243) re-loads the
persisted SeenSet via `loadSeenListings` (lines 124–140) before the first
`checkForUpdates` call. -/
def restart (st : MonitorState) : MonitorState :=
  { seen := st.persisted, persisted := st.persisted, initDone := false }

/-- A sequence of poll cycles, each fetching either a parsed document or a
failure; only the final state is kept. -/
def runPolls (st : MonitorState) (polls : List (Option (List Listing))) :
    MonitorState :=
  polls.foldl (fun s p => (checkForUpdates s p).2) st

/-! ## Listing identity (`parseInternshipListings`, line 106) — definitions -/

/-- The character class `[a-zA-Z0-9-]` kept by the slug regex
`/[^a-zA-Z0-9-]/g` on line 106 of `src/github-monitor.js`. -/
def isSlugKeep (c : Char) : Bool :=
  ('a' ≤ c && c ≤ 'z') || ('A' ≤ c && c ≤ 'Z') || ('0' ≤ c && c ≤ '9') || c == '-'

/-- The character class `[a-z0-9-]` named by the spec's `identify`
contract. -/
def isSlugLower (c : Char) : Bool :=
  ('a' ≤ c && c ≤ 'z') || ('0' ≤ c && c ≤ '9') || c == '-'

/-- Character-wise model of JavaScript `String.prototype.toLowerCase`.
It covers ASCII `A`–`Z` plus the one non-ASCII code point exercised below,
U+212A KELVIN SIGN, which JavaScript lowercases to `k`; other characters
are left unchanged (JavaScript's remaining mappings are irrelevant to the
statements proved here, which restrict general inputs to ASCII). -/
def jsToLower (c : Char) : Char :=
  if 'A' ≤ c && c ≤ 'Z' then Char.ofNat (c.toNat + 32)
  else if c = Char.ofNat 0x212A then 'k'
  else c

/-- The `listing.id` derivation on line 106 of `src/github-monitor.js`:
`` `${company}-${role}-${location}`.replace(/[^a-zA-Z0-9-]/g, '-').toLowerCase() ``
— join with `-`, replace characters outside `[a-zA-Z0-9-]` first, lowercase
second.  A pure function of the `(company, role, location)` triple. -/
def listingId (company role location : String) : String :=
  String.mk ((((company ++ "-" ++ role ++ "-" ++ location).toList.map
    (fun c => if isSlugKeep c then c else '-')).map jsToLower))

/-- The spec's reference derivation (`identify` in §4.2): join with a
separator, lowercase first, then replace every character outside
`[a-z0-9-]` with `-`. -/
def identifySpec (company role location : String) : String :=
  String.mk ((((company ++ "-" ++ role ++ "-" ++ location).toList.map
    jsToLower).map (fun c => if isSlugLower c then c else '-')))

/-! ## Points ledger (database module, `src/unnamed/part_001`) — definitions -/

/-- A user ledger record: the `{...defaultUser, userId, username}` shape
created by `getUser` (src/unnamed/part_001, lines 15–31 and 81–97).
`createdAt` (a wall-clock timestamp) is not modelled; `lastActiveDate`
("YYYY-MM-DD") is an integer day number. -/
structure User where
  userId : String
  username : String
  seasonPoints : Int
  weeklyPoints : Int
  todayPoints : Int
  streakDays : Int
  lastActiveDate : Option Int
  internshipPoints : Int
  applicationsSubmitted : Int
  interviewPrepsDone : Int
  lifetimePoints : Int
  seasonsPlayed : Int
  bestRank : Option Int
  teamId : Option String
deriving DecidableEq

/-- The record `{...defaultUser, userId, username: username || userId}`
persisted by `getUser` for a previously unknown user (lines 84–90): all
counters zero, no dates, no team. -/
def defaultUser (uid uname : String) : User :=
  ⟨uid, uname, 0, 0, 0, 0, none, 0, 0, 0, 0, 0, none, none⟩

/-- A task record stored in the per-(user, date) bucket of `tasks.json`
(§3 of the spec; produced by the task parser).  `completedAt` (a
wall-clock timestamp set on completion and cleared on un-completion) is
not modelled: no claim depends on its value. -/
structure Task where
  id : Nat
  description : String
  category : String
  points : Int
  completed : Bool
deriving DecidableEq

/-- Decides whether the list `sub` occurs at the start of the second
list. -/
def leadsWith : List Char → List Char → Bool
  | [], _ => true
  | _ :: _, [] => false
  | a :: as, b :: bs => a == b && leadsWith as bs

/-- Decides whether `sub` occurs contiguously somewhere in the list. -/
def hasSub (sub : List Char) : List Char → Bool
  | [] => leadsWith sub []
  | c :: cs => leadsWith sub (c :: cs) || hasSub sub cs

/-- JavaScript `String.prototype.includes`. -/
def strIncludes (s sub : String) : Bool :=
  hasSub sub.toList s.toList

/-- JavaScript `String.prototype.toLowerCase` on a whole string (see
`jsToLower`). -/
def lowerStr (s : String) : String :=
  String.mk (s.toList.map jsToLower)

/-- The mutation of the task found by
`tasks[userId][dateKey].find(t => t.id === taskId)` (lines 189, 236):
JavaScript `find` returns the first match, so only the first task with the
given id has its `completed` flag set. -/
def setCompleted (taskId : Nat) (c : Bool) : List Task → List Task
  | [] => []
  | t :: ts =>
    if t.id = taskId then { t with completed := c } :: ts
    else t :: setCompleted taskId c ts

/-- `completeTask` (src/unnamed/part_001, lines 181–223), restricted to the
addressed `tasks[userId][dateKey]` bucket and the addressed user record.
An absent user or date bucket behaves exactly like a missing task id
(`null` return, no state change), so both are the `none` branch of
`find?`.  `task.points || 0` coerces a missing points field to `0`; with a
total integer field it is the identity.  The counter updates follow lines
208–220: the four point counters gain `points`; internship points gain
`points` when `category === 'internship'`; an application is counted when
additionally the lowercased description contains `'apply'`; an interview
prep when it contains `'interview'`, `'lc'` or `'leetcode'`.  A task that
is already completed is returned unchanged (line 194–196). -/
def completeTask (bucket : List Task) (u : User) (taskId : Nat) :
    List Task × User :=
  match bucket.find? (fun t => t.id == taskId) with
  | none => (bucket, u)
  | some t =>
    if t.completed then (bucket, u)
    else
      let points := t.points
      let isInternship := t.category == "internship"
      let descr := lowerStr t.description
      (setCompleted taskId true bucket,
       { u with
         todayPoints := u.todayPoints + points
         seasonPoints := u.seasonPoints + points
         weeklyPoints := u.weeklyPoints + points
         lifetimePoints := u.lifetimePoints + points
         internshipPoints :=
           if isInternship then u.internshipPoints + points
           else u.internshipPoints
         applicationsSubmitted :=
           if isInternship && strIncludes descr "apply" then
             u.applicationsSubmitted + 1
           else u.applicationsSubmitted
         interviewPrepsDone :=
           if isInternship && (strIncludes descr "interview" ||
               strIncludes descr "lc" || strIncludes descr "leetcode") then
             u.interviewPrepsDone + 1
           else u.interviewPrepsDone })

/-- `uncompleteTask` (src/unnamed/part_001, lines 228–260): a no-op unless
the addressed task exists and is currently completed; otherwise the four
point counters lose `points` floored at zero (`Math.max(0, ...)`, lines
252–255), internship points likewise when `category === 'internship'`, and
no other user field is written (lines 251–257). -/
def uncompleteTask (bucket : List Task) (u : User) (taskId : Nat) :
    List Task × User :=
  match bucket.find? (fun t => t.id == taskId) with
  | none => (bucket, u)
  | some t =>
    if !t.completed then (bucket, u)
    else
      let points := t.points
      let isInternship := t.category == "internship"
      (setCompleted taskId false bucket,
       { u with
         todayPoints := max 0 (u.todayPoints - points)
         seasonPoints := max 0 (u.seasonPoints - points)
         weeklyPoints := max 0 (u.weeklyPoints - points)
         lifetimePoints := max 0 (u.lifetimePoints - points)
         internshipPoints :=
           if isInternship then max 0 (u.internshipPoints - points)
           else u.internshipPoints })

/-- One complete/uncomplete pair on the same task. -/
def toggleOnce (bucket : List Task) (u : User) (taskId : Nat) :
    List Task × User :=
  let r := completeTask bucket u taskId
  uncompleteTask r.1 r.2 taskId

/-- Iterated complete/uncomplete pairs on the same task. -/
def toggleN : Nat → List Task → User → Nat → List Task × User
  | 0, bucket, u, _ => (bucket, u)
  | n + 1, bucket, u, taskId =>
    let r := toggleOnce bucket u taskId
    toggleN n r.1 r.2 taskId

/-- `updateStreak` (src/unnamed/part_001, lines 433–481).  Calendar dates
are integer day numbers: the JS `lastActive === today` string comparison
becomes integer equality and
`Math.floor((todayDate - lastDate) / (1000*60*60*24))` becomes
`today - last` (both dates are "YYYY-MM-DD" at UTC midnight, so the
quotient is exact).  `STREAK_THRESHOLD` is 10 (line 438).  Returns the
updated user record together with the returned streak count; in the
below-threshold branch (lines 474–478) nothing is written. -/
def updateStreak (u : User) (today pointsEarned : Int) : User × Int :=
  if pointsEarned ≥ 10 then
    match u.lastActiveDate with
    | some last =>
      if last = today then (u, u.streakDays)
      else
        if today - last = 1 then
          ({ u with streakDays := u.streakDays + 1,
                    lastActiveDate := some today },
           u.streakDays + 1)
        else if today - last > 1 then
          ({ u with streakDays := 1, lastActiveDate := some today }, 1)
        else (u, u.streakDays)
    | none =>
      ({ u with streakDays := 1, lastActiveDate := some today }, 1)
  else (u, u.streakDays)

/-! ## Leaderboard (`src/gamification.js`) — definitions -/

/-- The `sortKey` selection of `getLeaderboard` (`src/gamification.js`,
lines 14–38): `week`, `season`, `internship` and `streak` select their
counters; `today` and the `default` arm both select `todayPoints`.  The JS
field accesses are `user[sortKey] || 0`; with total integer fields
`x || 0` is `x`. -/
def sortKeyOf (type : String) : User → Int :=
  if type == "week" then User.weeklyPoints
  else if type == "season" then User.seasonPoints
  else if type == "internship" then User.internshipPoints
  else if type == "streak" then User.streakDays
  else User.todayPoints

/-- Insertion step of the stable descending sort: the new element goes in
front of the first strictly smaller key, i.e. after every earlier element
of greater or equal key. -/
def insertDesc (key : User → Int) (u : User) : List User → List User
  | [] => [u]
  | v :: vs =>
    if key v ≤ key u then u :: v :: vs else v :: insertDesc key u vs

/-- Stable descending sort by `key`.  ECMAScript 2019 requires
`Array.prototype.sort` to be stable, and a stable sort's output is
uniquely determined, so this computes exactly the order produced by
`userArray.sort((a, b) => (b[sortKey] || 0) - (a[sortKey] || 0))`
(line 41 of `src/gamification.js`). -/
def sortDesc (key : User → Int) : List User → List User
  | [] => []
  | u :: us => insertDesc key u (sortDesc key us)

/-- `getLeaderboard` (src/gamification.js, lines 7–51), reduced to its
data content: the ranked `users` field of the returned object (the embed
`title` and the echoed `sortKey` are presentation).  `Object.values`
iteration order is the store's insertion order, taken as the input list.
The code sorts (line 41), then filters `value > 0` (line 44), then takes
`slice(0, limit)` (line 48). -/
def getLeaderboard (users : List User) (type : String) (limit : Nat) :
    List User :=
  ((sortDesc (sortKeyOf type) users).filter
    (fun u => 0 < sortKeyOf type u)).take limit

/-- Modelled from the spec (§4.6 `rank` contract): the users with positive
metric value, in descending metric order, truncated to `limit`. -/
def rankSpec (users : List User) (type : String) (limit : Nat) :
    List User :=
  (sortDesc (sortKeyOf type) (users.filter
    (fun u => 0 < sortKeyOf type u))).take limit

/-- A fresh user with the given number of today-points, for the concrete
leaderboard instance of the spec. -/
def demoUser (uid : String) (todayPts : Int) : User :=
  { defaultUser uid uid with todayPoints := todayPts }

/-! ## Teams (database module, `src/unnamed/part_001`) — definitions -/

/-- A team record (`createTeam`, src/unnamed/part_001 lines 364–371);
`createdAt` is not modelled. -/
structure TeamRec where
  id : String
  name : String
  members : List String
  weeklyPoints : Int
  seasonPoints : Int
deriving DecidableEq

/-- The persisted stores touched by the team operations: `users.json`
(keyed by userId) and `teams.json` (keyed by teamId), each an association
list in insertion order. -/
structure TeamsState where
  users : List (String × User)
  teams : List (String × TeamRec)
deriving DecidableEq

/-- `getUser(userId)` (lines 81–97) as called by the team operations (no
username argument): the existing record, or a fresh
`{...defaultUser, userId, username: userId}` appended to the store. -/
def getOrCreateUser (users : List (String × User)) (uid : String) :
    List (String × User) × User :=
  match users.lookup uid with
  | some u => (users, u)
  | none => (users ++ [(uid, defaultUser uid uid)], defaultUser uid uid)

/-- In-place mutation of the value stored under key `k0` of an association
list; entries under other keys are untouched (the JS code mutates the
loaded object at one key and saves the whole object). -/
def modifyAssoc {β : Type} (k0 : String) (f : β → β)
    (l : List (String × β)) : List (String × β) :=
  l.map (fun kv => if kv.1 == k0 then (kv.1, f kv.2) else kv)

/-- The removal
`teams[old].members = teams[old].members.filter(id => id !== userId)`
(lines 385–387 and 414–416). -/
def removeMember (uid old : String)
    (teams : List (String × TeamRec)) : List (String × TeamRec) :=
  modifyAssoc old
    (fun r => { r with members := r.members.filter (fun m => m ≠ uid) }) teams

/-- The guarded push
`if (!teams[teamId].members.includes(userId)) members.push(userId)`
(lines 393–395). -/
def pushMember (uid tid : String)
    (teams : List (String × TeamRec)) : List (String × TeamRec) :=
  modifyAssoc tid
    (fun r => { r with members :=
      if uid ∈ r.members then r.members else r.members ++ [uid] }) teams

/-- `updateUser(userId, { teamId })` (lines 398 and 419): the user record
exists at that point and only its `teamId` field changes. -/
def setUserTeam (uid : String) (tid : Option String)
    (users : List (String × User)) : List (String × User) :=
  modifyAssoc uid (fun u => { u with teamId := tid }) users

/-- `createTeam` (lines 357–375): refuse when the id is taken (`null`
return, no change), otherwise store a fresh team whose member list is just
the creator.  The creator's own user record — in particular its `teamId`
and any membership in another team — is not touched. -/
def createTeam (st : TeamsState) (tid tname creator : String) : TeamsState :=
  match st.teams.lookup tid with
  | some _ => st
  | none =>
    { st with teams := st.teams ++ [(tid, ⟨tid, tname, [creator], 0, 0⟩)] }

/-- `addUserToTeam` (lines 380–401): load the user (creating the record if
needed), drop them from the team their record names, and if the target
team exists push them into it, save the teams, and record the new
`teamId`.  When the target team does not exist the function returns early
(lines 389–391) before `saveTeams`, so the persisted teams are
unchanged. -/
def addUserToTeam (st : TeamsState) (uid tid : String) : TeamsState :=
  let p := getOrCreateUser st.users uid
  let teams1 :=
    match p.2.teamId with
    | some old => removeMember uid old st.teams
    | none => st.teams
  match teams1.lookup tid with
  | none => { st with users := p.1 }
  | some _ =>
    { users := setUserTeam uid (some tid) p.1,
      teams := pushMember uid tid teams1 }

/-- `removeUserFromTeam` (lines 406–421): nothing happens when the user's
record names no team; otherwise they are filtered out of that team's
member list (when the team still exists) and their `teamId` is cleared. -/
def removeUserFromTeam (st : TeamsState) (uid : String) : TeamsState :=
  let p := getOrCreateUser st.users uid
  match p.2.teamId with
  | none => { st with users := p.1 }
  | some old =>
    { users := setUserTeam uid none p.1,
      teams := removeMember uid old st.teams }

/-- The team operations reachable from the command surface (`?team join`
creates or joins, `?team leave` leaves; `src/index.js` lines 1035–1079 and
1084–1104). -/
inductive TeamOp where
  | create (tid tname creator : String)
  | join (uid tid : String)
  | leave (uid : String)
deriving DecidableEq

/-- Detects the `create` operation. -/
def TeamOp.isCreate : TeamOp → Bool
  | .create _ _ _ => true
  | _ => false

/-- Interpretation of one team operation on the stores. -/
def applyOp (st : TeamsState) : TeamOp → TeamsState
  | .create tid tname c => createTeam st tid tname c
  | .join uid tid => addUserToTeam st uid tid
  | .leave uid => removeUserFromTeam st uid

/-- Interpretation of a sequence of team operations. -/
def applyOps (st : TeamsState) (ops : List TeamOp) : TeamsState :=
  ops.foldl applyOp st

/-- Decides that `uid`'s stored record names `tid` as its team. -/
def userInTeam (users : List (String × User)) (uid tid : String) : Bool :=
  match users.lookup uid with
  | some u => u.teamId == some tid
  | none => false

/-- Every member of every stored team has that team recorded as their
`teamId`.  It holds of the empty stores and is maintained by join and
leave (but not by create). -/
def MembershipConsistent (st : TeamsState) : Prop :=
  ∀ e ∈ st.teams, ∀ uid ∈ e.2.members, userInTeam st.users uid e.1 = true

/-- No user appears in the member lists of two teams stored under
different ids. -/
def NoDoubleMembership (st : TeamsState) : Prop :=
  ∀ e1 ∈ st.teams, ∀ e2 ∈ st.teams, e1.1 ≠ e2.1 →
    ∀ uid ∈ e1.2.members, uid ∉ e2.2.members

instance decMembershipConsistent (st : TeamsState) :
    Decidable (MembershipConsistent st) :=
  inferInstanceAs (Decidable (∀ e ∈ st.teams, ∀ uid ∈ e.2.members,
    userInTeam st.users uid e.1 = true))

instance decNoDoubleMembership (st : TeamsState) :
    Decidable (NoDoubleMembership st) :=
  inferInstanceAs (Decidable (∀ e1 ∈ st.teams, ∀ e2 ∈ st.teams,
    e1.1 ≠ e2.1 → ∀ uid ∈ e1.2.members, uid ∉ e2.2.members))

/-! ## Change detector — theorems -/

/-- The id-insertion loops of `checkForUpdates` (lines 275–277 and 297–299)
compute the union of the current set with the listed ids. -/
lemma foldl_insert_eq_union (s : Finset String) (L : List Listing) :
    L.foldl (fun t l => insert l.id t) s = s ∪ (L.map Listing.id).toFinset := by
  induction L generalizing s with
  | nil => simp
  | cons a L ih =>
    simp only [List.foldl_cons, ih, List.map_cons, List.toFinset_cons]
    rw [Finset.insert_union, Finset.union_insert]

/-- Evaluation of an uninitialized poll cycle (lines 272–282). -/
lemma checkForUpdates_init_eq (st : MonitorState) (L : List Listing)
    (hinit : st.initDone = false) :
    checkForUpdates st (some L) =
      ([], ⟨st.seen ∪ (L.map Listing.id).toFinset,
            st.seen ∪ (L.map Listing.id).toFinset, true⟩) := by
  simp only [checkForUpdates, hinit, Bool.not_false, if_true,
    foldl_insert_eq_union]

/-- Evaluation of a steady-state poll cycle (lines 284–303): the sink gets
the filtered new listings, the SeenSet gains exactly their ids, and the
flag stays set. -/
lemma checkForUpdates_steady_eq (st : MonitorState) (L : List Listing)
    (hinit : st.initDone = true) :
    (checkForUpdates st (some L)).1 = newOf st L ∧
    (checkForUpdates st (some L)).2.seen =
      st.seen ∪ ((newOf st L).map Listing.id).toFinset ∧
    (checkForUpdates st (some L)).2.initDone = true := by
  simp only [checkForUpdates, hinit, Bool.not_true, Bool.false_eq_true,
    if_false]
  split
  next h =>
    rw [List.isEmpty_iff] at h
    rw [h]
    simp [hinit]
  next h =>
    rw [foldl_insert_eq_union]
    exact ⟨rfl, rfl, rfl⟩

/-- **C1.** In the steady state (after initialization), a poll over parse
result `L` notifies the sink with exactly the sublist of `L` whose ids are
not in the current SeenSet (the filter `newOf`, in parse order), and
afterwards the SeenSet equals the previous SeenSet unioned with the ids of
those listings. -/
theorem checkForUpdates_steady_diff (st : MonitorState) (L : List Listing)
    (hinit : st.initDone = true) :
    (checkForUpdates st (some L)).1 = newOf st L ∧
    (checkForUpdates st (some L)).2.seen =
      st.seen ∪ ((newOf st L).map Listing.id).toFinset :=
  ⟨(checkForUpdates_steady_eq st L hinit).1,
   (checkForUpdates_steady_eq st L hinit).2.1⟩

/-- Concrete instance of C1: with SeenSet `{id A}` and parse result
`[A, B]`, exactly `[B]` is reported and the SeenSet becomes
`{id A, id B}`. -/
theorem checkForUpdates_steady_diff_witness :
    (checkForUpdates ⟨{"acme-swe-nyc"}, {"acme-swe-nyc"}, true⟩
        (some [⟨"Acme", "SWE", "NYC", "u1", "1d", "c", "e", "acme-swe-nyc"⟩,
               ⟨"Beta", "DS", "SF", "u2", "2d", "c", "e", "beta-ds-sf"⟩])).1 =
      [⟨"Beta", "DS", "SF", "u2", "2d", "c", "e", "beta-ds-sf"⟩] ∧
    (checkForUpdates ⟨{"acme-swe-nyc"}, {"acme-swe-nyc"}, true⟩
        (some [⟨"Acme", "SWE", "NYC", "u1", "1d", "c", "e", "acme-swe-nyc"⟩,
               ⟨"Beta", "DS", "SF", "u2", "2d", "c", "e", "beta-ds-sf"⟩])).2.seen =
      {"acme-swe-nyc", "beta-ds-sf"} := by
  have h := checkForUpdates_steady_diff ⟨{"acme-swe-nyc"}, {"acme-swe-nyc"}, true⟩
    [⟨"Acme", "SWE", "NYC", "u1", "1d", "c", "e", "acme-swe-nyc"⟩,
     ⟨"Beta", "DS", "SF", "u2", "2d", "c", "e", "beta-ds-sf"⟩] rfl
  refine ⟨h.1.trans (by decide), h.2.trans (by decide)⟩

/-- **C2.** The first poll after process start marks all parsed ids as seen
without notifying; running the first poll again after a restart over the
same document notifies nothing and leaves the SeenSet unchanged. -/
theorem firstPoll_idempotent_init (st : MonitorState) (L : List Listing)
    (hinit : st.initDone = false) :
    (checkForUpdates st (some L)).1 = [] ∧
    (checkForUpdates st (some L)).2.seen = st.seen ∪ (L.map Listing.id).toFinset ∧
    (checkForUpdates (restart (checkForUpdates st (some L)).2) (some L)).1 = [] ∧
    (checkForUpdates (restart (checkForUpdates st (some L)).2) (some L)).2.seen =
      (checkForUpdates st (some L)).2.seen := by
  rw [checkForUpdates_init_eq st L hinit]
  rw [show restart ([] , (⟨st.seen ∪ (L.map Listing.id).toFinset,
        st.seen ∪ (L.map Listing.id).toFinset, true⟩ : MonitorState)).2 =
      ⟨st.seen ∪ (L.map Listing.id).toFinset,
       st.seen ∪ (L.map Listing.id).toFinset, false⟩ from rfl]
  rw [checkForUpdates_init_eq _ L rfl]
  refine ⟨rfl, rfl, rfl, ?_⟩
  simp [Finset.union_assoc]

/-- Concrete instance of C2: a fresh state baselines one listing silently,
and the restarted second first-poll notifies nothing and keeps the set. -/
theorem firstPoll_idempotent_init_witness :
    (checkForUpdates ⟨∅, ∅, false⟩
        (some [⟨"Acme", "SWE", "NYC", "u1", "1d", "c", "e", "acme-swe-nyc"⟩])).1 = [] ∧
    (checkForUpdates (restart (checkForUpdates ⟨∅, ∅, false⟩
        (some [⟨"Acme", "SWE", "NYC", "u1", "1d", "c", "e", "acme-swe-nyc"⟩])).2)
        (some [⟨"Acme", "SWE", "NYC", "u1", "1d", "c", "e", "acme-swe-nyc"⟩])).1 = [] ∧
    (checkForUpdates (restart (checkForUpdates ⟨∅, ∅, false⟩
        (some [⟨"Acme", "SWE", "NYC", "u1", "1d", "c", "e", "acme-swe-nyc"⟩])).2)
        (some [⟨"Acme", "SWE", "NYC", "u1", "1d", "c", "e", "acme-swe-nyc"⟩])).2.seen =
      (checkForUpdates ⟨∅, ∅, false⟩
        (some [⟨"Acme", "SWE", "NYC", "u1", "1d", "c", "e", "acme-swe-nyc"⟩])).2.seen := by
  have h := firstPoll_idempotent_init ⟨∅, ∅, false⟩
    [⟨"Acme", "SWE", "NYC", "u1", "1d", "c", "e", "acme-swe-nyc"⟩] rfl
  exact ⟨h.1, h.2.2.1, h.2.2.2⟩

/-- **C4.** The SeenSet grows monotonically: a single poll can only add ids,
and hence over every sequence of polls the SeenSet after poll `N+1` is a
superset of the SeenSet after poll `N`. -/
theorem seenSet_monotone :
    (∀ (st : MonitorState) (p : Option (List Listing)),
      st.seen ⊆ (checkForUpdates st p).2.seen) ∧
    (∀ (st : MonitorState) (polls : List (Option (List Listing))),
      st.seen ⊆ (runPolls st polls).seen) := by
  have single : ∀ (st : MonitorState) (p : Option (List Listing)),
      st.seen ⊆ (checkForUpdates st p).2.seen := by
    intro st p
    match p with
    | none => exact Finset.Subset.refl _
    | some L =>
      by_cases hinit : st.initDone
      · rw [(checkForUpdates_steady_eq st L hinit).2.1]
        exact Finset.subset_union_left
      · rw [checkForUpdates_init_eq st L (Bool.not_eq_true _ ▸ hinit)]
        exact Finset.subset_union_left
  refine ⟨single, ?_⟩
  intro st polls
  induction polls generalizing st with
  | nil => exact Finset.Subset.refl _
  | cons p polls ih =>
    exact (single st p).trans (ih (checkForUpdates st p).2)

/-- Concrete instance of C4: the SeenSet after a concrete two-poll
sequence contains the SeenSet it started from. -/
theorem seenSet_monotone_witness :
    ({"acme-swe-nyc"} : Finset String) ⊆
      (runPolls ⟨{"acme-swe-nyc"}, {"acme-swe-nyc"}, true⟩
        [some [⟨"Beta", "DS", "SF", "u2", "2d", "c", "e", "beta-ds-sf"⟩],
         none]).seen :=
  seenSet_monotone.2 ⟨{"acme-swe-nyc"}, {"acme-swe-nyc"}, true⟩
    [some [⟨"Beta", "DS", "SF", "u2", "2d", "c", "e", "beta-ds-sf"⟩], none]

/-- **C7.** A fetch failure in any state leaves the whole monitor state —
in-memory SeenSet, persisted SeenSet and initialization flag — unchanged
and notifies nothing, and the next poll behaves exactly as if the failed
cycle had never happened. -/
theorem poll_failure_noop :
    (∀ st : MonitorState, checkForUpdates st none = ([], st)) ∧
    (∀ (st : MonitorState) (p : Option (List Listing)),
      checkForUpdates (checkForUpdates st none).2 p = checkForUpdates st p) := by
  exact ⟨fun st => rfl, fun st p => rfl⟩

/-! ## Listing identity — theorems -/

/-- On ASCII characters, replacing outside `[a-zA-Z0-9-]` and then
lowercasing agrees with lowercasing and then replacing outside
`[a-z0-9-]`. -/
lemma slug_ascii_pointwise : ∀ n : Fin 128,
    jsToLower (if isSlugKeep (Char.ofNat n.val) then Char.ofNat n.val else '-') =
      (if isSlugLower (jsToLower (Char.ofNat n.val)) then jsToLower (Char.ofNat n.val)
       else '-') := by
  decide

/-- **C5 counterexample.** For company `"K"` (KELVIN SIGN, which
JavaScript lowercases to `k`), the code's id (replace, then lowercase)
differs from the spec's reference derivation (lowercase, then replace):
`"--a-b"` versus `"k-a-b"`. -/
theorem listingId_spec_order_counterexample :
    listingId (String.mk [Char.ofNat 0x212A]) "a" "b" ≠
      identifySpec (String.mk [Char.ofNat 0x212A]) "a" "b" := by
  decide

/-- **C5** (amended).  The code derives the id by replacing characters
outside `[a-zA-Z0-9-]` with `-` *before* lowercasing, while the spec's
reference derivation lowercases first; the two agree on every triple made
of ASCII characters (the counterexample shows they can differ beyond
ASCII).  The derivation is a pure function of the triple. -/
theorem listingId_eq_identifySpec_of_ascii (company role location : String)
    (h : ∀ c ∈ (company ++ "-" ++ role ++ "-" ++ location).toList,
      c.toNat < 128) :
    listingId company role location = identifySpec company role location := by
  unfold listingId identifySpec
  congr 1
  rw [List.map_map, List.map_map]
  refine List.map_congr_left ?_
  intro c hc
  have hlt := h c hc
  have hpt := slug_ascii_pointwise ⟨c.toNat, hlt⟩
  simpa [Char.ofNat_toNat, Function.comp] using hpt

/-- Concrete instance of C5: `identify("Acme Corp", "SWE Intern", "NYC, NY")`
is ASCII, so the code's id agrees with the reference derivation there. -/
theorem listingId_eq_identifySpec_of_ascii_witness :
    (∀ c ∈ ("Acme Corp" ++ "-" ++ "SWE Intern" ++ "-" ++ "NYC, NY").toList,
      c.toNat < 128) ∧
    listingId "Acme Corp" "SWE Intern" "NYC, NY" =
      identifySpec "Acme Corp" "SWE Intern" "NYC, NY" :=
  ⟨by decide, listingId_eq_identifySpec_of_ascii "Acme Corp" "SWE Intern" "NYC, NY"
    (by decide)⟩

/-! ## Points ledger — theorems -/

/-- Setting the completion flag through `find`-and-mutate changes the task
that `find` returns and nothing about which task is found. -/
lemma find?_setCompleted (bucket : List Task) (taskId : Nat) (c : Bool) :
    (setCompleted taskId c bucket).find? (fun t => t.id == taskId) =
      (bucket.find? (fun t => t.id == taskId)).map
        (fun t => { t with completed := c }) := by
  induction bucket with
  | nil => rfl
  | cons s ts ih =>
    by_cases h : s.id = taskId
    · simp [setCompleted, List.find?, h, ih]
    · have hb : (s.id == taskId) = false := by simp [h]
      simp [setCompleted, List.find?, h, hb, ih]

/-- Completing and then un-completing restores the bucket exactly, given
that the addressed task was incomplete. -/
lemma setCompleted_roundtrip (bucket : List Task) (taskId : Nat) (t : Task)
    (hf : bucket.find? (fun x => x.id == taskId) = some t)
    (hc : t.completed = false) :
    setCompleted taskId false (setCompleted taskId true bucket) = bucket := by
  induction bucket with
  | nil => simp at hf
  | cons s ts ih =>
    by_cases h : s.id = taskId
    · have hb : (s.id == taskId) = true := by simp [h]
      have hs : s = t := by
        simpa only [List.find?, hb, Option.some.injEq] using hf
      subst hs
      have hrec : ({ s with completed := false } : Task) = s := by
        obtain ⟨i, d, cat, pts, comp⟩ := s
        simp only at hc
        simp [hc]
      have hid : ({ s with completed := true } : Task).id = taskId := h
      simp only [setCompleted, if_pos h, if_pos hid]
      rw [hrec]
    · have hb : (s.id == taskId) = false := by simp [h]
      have hf' : ts.find? (fun x => x.id == taskId) = some t := by
        simpa only [List.find?, hb] using hf
      simp only [setCompleted, if_neg h]
      rw [ih hf']

/-- Exact effect of one complete/uncomplete pair on an incomplete task:
the bucket is restored, the five point counters go through
`max 0 (x + points - points)`, and the two tally counters keep the
increment that `completeTask` gave them. -/
lemma toggleOnce_eq (bucket : List Task) (u : User) (taskId : Nat) (t : Task)
    (hf : bucket.find? (fun x => x.id == taskId) = some t)
    (hc : t.completed = false) :
    toggleOnce bucket u taskId =
      (bucket,
       { u with
         todayPoints := max 0 (u.todayPoints + t.points - t.points)
         seasonPoints := max 0 (u.seasonPoints + t.points - t.points)
         weeklyPoints := max 0 (u.weeklyPoints + t.points - t.points)
         lifetimePoints := max 0 (u.lifetimePoints + t.points - t.points)
         internshipPoints :=
           if t.category == "internship" then
             max 0 (u.internshipPoints + t.points - t.points)
           else u.internshipPoints
         applicationsSubmitted :=
           if t.category == "internship" &&
               strIncludes (lowerStr t.description) "apply" then
             u.applicationsSubmitted + 1
           else u.applicationsSubmitted
         interviewPrepsDone :=
           if t.category == "internship" &&
               (strIncludes (lowerStr t.description) "interview" ||
                strIncludes (lowerStr t.description) "lc" ||
                strIncludes (lowerStr t.description) "leetcode") then
             u.interviewPrepsDone + 1
           else u.interviewPrepsDone }) := by
  unfold toggleOnce completeTask uncompleteTask
  simp only [hf, hc, Bool.false_eq_true, if_false, find?_setCompleted,
    Option.map_some', Bool.not_true,
    setCompleted_roundtrip bucket taskId t hf hc]
  by_cases hcat : (t.category == "internship") = true <;>
    simp [hcat]

/-- With non-negative counters (as every user the ledger ever stores has),
one complete/uncomplete pair restores the bucket and every point counter
exactly; only the two tally counters keep the increment of
`completeTask`. -/
lemma toggleOnce_restores (bucket : List Task) (u : User) (taskId : Nat)
    (t : Task)
    (hf : bucket.find? (fun x => x.id == taskId) = some t)
    (hc : t.completed = false)
    (h1 : 0 ≤ u.todayPoints) (h2 : 0 ≤ u.seasonPoints)
    (h3 : 0 ≤ u.weeklyPoints) (h4 : 0 ≤ u.lifetimePoints)
    (h5 : 0 ≤ u.internshipPoints) :
    toggleOnce bucket u taskId =
      (bucket,
       { u with
         applicationsSubmitted :=
           if t.category == "internship" &&
               strIncludes (lowerStr t.description) "apply" then
             u.applicationsSubmitted + 1
           else u.applicationsSubmitted
         interviewPrepsDone :=
           if t.category == "internship" &&
               (strIncludes (lowerStr t.description) "interview" ||
                strIncludes (lowerStr t.description) "lc" ||
                strIncludes (lowerStr t.description) "leetcode") then
             u.interviewPrepsDone + 1
           else u.interviewPrepsDone }) := by
  rw [toggleOnce_eq bucket u taskId t hf hc]
  have ht : max 0 (u.todayPoints + t.points - t.points) = u.todayPoints := by
    rw [add_sub_cancel_right]; exact max_eq_right h1
  have hs : max 0 (u.seasonPoints + t.points - t.points) = u.seasonPoints := by
    rw [add_sub_cancel_right]; exact max_eq_right h2
  have hw : max 0 (u.weeklyPoints + t.points - t.points) = u.weeklyPoints := by
    rw [add_sub_cancel_right]; exact max_eq_right h3
  have hl : max 0 (u.lifetimePoints + t.points - t.points) = u.lifetimePoints := by
    rw [add_sub_cancel_right]; exact max_eq_right h4
  have hint : (if t.category == "internship" then
      max 0 (u.internshipPoints + t.points - t.points)
      else u.internshipPoints) = u.internshipPoints := by
    split
    · rw [add_sub_cancel_right]; exact max_eq_right h5
    · rfl
  rw [ht, hs, hw, hl, hint]

/-- Iterating the pair any number of times keeps restoring the bucket and
the five point counters. -/
lemma toggleN_restores (bucket : List Task) (taskId : Nat) (t : Task)
    (hf : bucket.find? (fun x => x.id == taskId) = some t)
    (hc : t.completed = false) :
    ∀ (n : Nat) (u : User), 0 ≤ u.todayPoints → 0 ≤ u.seasonPoints →
      0 ≤ u.weeklyPoints → 0 ≤ u.lifetimePoints → 0 ≤ u.internshipPoints →
      (toggleN n bucket u taskId).1 = bucket ∧
      (toggleN n bucket u taskId).2.todayPoints = u.todayPoints ∧
      (toggleN n bucket u taskId).2.seasonPoints = u.seasonPoints ∧
      (toggleN n bucket u taskId).2.weeklyPoints = u.weeklyPoints ∧
      (toggleN n bucket u taskId).2.lifetimePoints = u.lifetimePoints ∧
      (toggleN n bucket u taskId).2.internshipPoints = u.internshipPoints := by
  intro n
  induction n with
  | zero =>
    intro u h1 h2 h3 h4 h5
    exact ⟨rfl, rfl, rfl, rfl, rfl, rfl⟩
  | succ n ih =>
    intro u h1 h2 h3 h4 h5
    have hstep : toggleN (n + 1) bucket u taskId =
        toggleN n (toggleOnce bucket u taskId).1
          (toggleOnce bucket u taskId).2 taskId := rfl
    rw [hstep, toggleOnce_restores bucket u taskId t hf hc h1 h2 h3 h4 h5]
    exact ih _ h1 h2 h3 h4 h5

/-- **C3.** Starting from the non-negative counters every stored user has,
a `completeTask`/`uncompleteTask` pair on an incomplete task — repeated
any number of times — returns all four point counters to exactly their
initial values, for any task with any (integer) point value. -/
theorem completeUncomplete_no_drift (bucket : List Task) (u : User)
    (taskId : Nat) (t : Task) (n : Nat)
    (hf : bucket.find? (fun x => x.id == taskId) = some t)
    (hc : t.completed = false)
    (h1 : 0 ≤ u.todayPoints) (h2 : 0 ≤ u.seasonPoints)
    (h3 : 0 ≤ u.weeklyPoints) (h4 : 0 ≤ u.lifetimePoints)
    (h5 : 0 ≤ u.internshipPoints) :
    (toggleN n bucket u taskId).2.todayPoints = u.todayPoints ∧
    (toggleN n bucket u taskId).2.weeklyPoints = u.weeklyPoints ∧
    (toggleN n bucket u taskId).2.seasonPoints = u.seasonPoints ∧
    (toggleN n bucket u taskId).2.lifetimePoints = u.lifetimePoints := by
  obtain ⟨-, e1, e2, e3, e4, -⟩ :=
    toggleN_restores bucket taskId t hf hc n u h1 h2 h3 h4 h5
  exact ⟨e1, e3, e2, e4⟩

/-- Concrete instance of C3: one hundred complete/uncomplete pairs on a
5-point internship task leave a fresh user's four counters at zero. -/
theorem completeUncomplete_no_drift_witness :
    ([⟨1, "apply acme", "internship", 5, false⟩] : List Task).find?
        (fun x => x.id == 1) =
      some ⟨1, "apply acme", "internship", 5, false⟩ ∧
    (toggleN 100 [⟨1, "apply acme", "internship", 5, false⟩]
        (defaultUser "u1" "u1") 1).2.todayPoints = 0 ∧
    (toggleN 100 [⟨1, "apply acme", "internship", 5, false⟩]
        (defaultUser "u1" "u1") 1).2.weeklyPoints = 0 ∧
    (toggleN 100 [⟨1, "apply acme", "internship", 5, false⟩]
        (defaultUser "u1" "u1") 1).2.seasonPoints = 0 ∧
    (toggleN 100 [⟨1, "apply acme", "internship", 5, false⟩]
        (defaultUser "u1" "u1") 1).2.lifetimePoints = 0 := by
  have h := completeUncomplete_no_drift
    [⟨1, "apply acme", "internship", 5, false⟩] (defaultUser "u1" "u1") 1
    ⟨1, "apply acme", "internship", 5, false⟩ 100
    (by decide) rfl (by decide) (by decide) (by decide) (by decide) (by decide)
  exact ⟨by decide, h.1, h.2.1, h.2.2.1, h.2.2.2⟩

/-- **C6.** `updateStreak` follows the transition table: at or above the
threshold of 10 points, a last-active date of today changes nothing,
exactly yesterday increments the streak, anything older — or no recorded
date — resets it to 1, and in the two latter cases the last-active date
becomes today; below the threshold nothing changes regardless of the
last-active date. -/
theorem updateStreak_transition_table (u : User) (today p : Int) :
    (10 ≤ p → u.lastActiveDate = some today →
      updateStreak u today p = (u, u.streakDays)) ∧
    (10 ≤ p → u.lastActiveDate = some (today - 1) →
      updateStreak u today p =
        ({ u with streakDays := u.streakDays + 1,
                  lastActiveDate := some today }, u.streakDays + 1)) ∧
    (∀ d : Int, 10 ≤ p → u.lastActiveDate = some d → d < today - 1 →
      updateStreak u today p =
        ({ u with streakDays := 1, lastActiveDate := some today }, 1)) ∧
    (10 ≤ p → u.lastActiveDate = none →
      updateStreak u today p =
        ({ u with streakDays := 1, lastActiveDate := some today }, 1)) ∧
    (p < 10 → updateStreak u today p = (u, u.streakDays)) := by
  refine ⟨?_, ?_, ?_, ?_, ?_⟩
  · intro hp hd
    simp [updateStreak, hd, ge_iff_le, hp]
  · intro hp hd
    have h1 : ¬ (today - 1 = today) := by omega
    have h2 : today - (today - 1) = 1 := by omega
    simp [updateStreak, hd, ge_iff_le, hp, h1, h2]
  · intro d hp hd hlt
    have h1 : ¬ (d = today) := by omega
    have h2 : ¬ (today - d = 1) := by omega
    have h3 : today - d > 1 := by omega
    simp [updateStreak, hd, ge_iff_le, hp, h1, h2, h3]
  · intro hp hd
    simp [updateStreak, hd, ge_iff_le, hp]
  · intro hp
    have h0 : ¬ (10 ≤ p) := by omega
    simp [updateStreak, ge_iff_le, h0]

/-- Concrete instance of C6: 15 points with a yesterday last-active date
raise a 4-day streak to 5 and stamp today; 5 points change nothing. -/
theorem updateStreak_transition_table_witness :
    ((10 : Int) ≤ 15) ∧
    updateStreak
      { defaultUser "u3" "u3" with streakDays := 4, lastActiveDate := some 99 }
      100 15 =
      ({ defaultUser "u3" "u3" with streakDays := 5, lastActiveDate := some 100 },
       5) ∧
    updateStreak
      { defaultUser "u3" "u3" with streakDays := 4, lastActiveDate := some 99 }
      100 5 =
      ({ defaultUser "u3" "u3" with streakDays := 4, lastActiveDate := some 99 },
       4) := by
  have h := updateStreak_transition_table
    { defaultUser "u3" "u3" with streakDays := 4, lastActiveDate := some 99 }
    100 15
  have h' := updateStreak_transition_table
    { defaultUser "u3" "u3" with streakDays := 4, lastActiveDate := some 99 }
    100 5
  refine ⟨by norm_num, ?_, ?_⟩
  · exact (h.2.1 (by norm_num) (by decide)).trans (by decide)
  · exact (h'.2.2.2.2 (by norm_num)).trans (by decide)

/-- **C10.** `uncompleteTask` writes only the point counters: in every
case it leaves `applicationsSubmitted`, `interviewPrepsDone` and every
other non-point field untouched, even though `completeTask` increments the
two tallies on an incomplete-to-complete transition; consequently a
complete/uncomplete/complete cycle on an internship task matching the
apply (resp. interview) heuristic increments `applicationsSubmitted`
(resp. `interviewPrepsDone`) by two. -/
theorem uncompleteTask_frame_double_count :
    (∀ (bucket : List Task) (u : User) (taskId : Nat),
      (uncompleteTask bucket u taskId).2.applicationsSubmitted =
        u.applicationsSubmitted ∧
      (uncompleteTask bucket u taskId).2.interviewPrepsDone =
        u.interviewPrepsDone ∧
      (uncompleteTask bucket u taskId).2.userId = u.userId ∧
      (uncompleteTask bucket u taskId).2.username = u.username ∧
      (uncompleteTask bucket u taskId).2.streakDays = u.streakDays ∧
      (uncompleteTask bucket u taskId).2.lastActiveDate = u.lastActiveDate ∧
      (uncompleteTask bucket u taskId).2.seasonsPlayed = u.seasonsPlayed ∧
      (uncompleteTask bucket u taskId).2.bestRank = u.bestRank ∧
      (uncompleteTask bucket u taskId).2.teamId = u.teamId) ∧
    (∀ (bucket : List Task) (u : User) (taskId : Nat) (t : Task),
      bucket.find? (fun x => x.id == taskId) = some t →
      t.completed = false →
      (t.category == "internship" &&
        strIncludes (lowerStr t.description) "apply") = true →
      (completeTask (toggleOnce bucket u taskId).1
          (toggleOnce bucket u taskId).2 taskId).2.applicationsSubmitted =
        u.applicationsSubmitted + 2) ∧
    (∀ (bucket : List Task) (u : User) (taskId : Nat) (t : Task),
      bucket.find? (fun x => x.id == taskId) = some t →
      t.completed = false →
      (t.category == "internship" &&
        (strIncludes (lowerStr t.description) "interview" ||
         strIncludes (lowerStr t.description) "lc" ||
         strIncludes (lowerStr t.description) "leetcode")) = true →
      (completeTask (toggleOnce bucket u taskId).1
          (toggleOnce bucket u taskId).2 taskId).2.interviewPrepsDone =
        u.interviewPrepsDone + 2) := by
  refine ⟨?_, ?_, ?_⟩
  · intro bucket u taskId
    unfold uncompleteTask
    split
    · exact ⟨rfl, rfl, rfl, rfl, rfl, rfl, rfl, rfl, rfl⟩
    · split
      · exact ⟨rfl, rfl, rfl, rfl, rfl, rfl, rfl, rfl, rfl⟩
      · exact ⟨rfl, rfl, rfl, rfl, rfl, rfl, rfl, rfl, rfl⟩
  · intro bucket u taskId t hf hc happ
    rw [toggleOnce_eq bucket u taskId t hf hc]
    unfold completeTask
    simp only [hf, hc, Bool.false_eq_true, if_false, happ, if_true]
    omega
  · intro bucket u taskId t hf hc hiv
    rw [toggleOnce_eq bucket u taskId t hf hc]
    unfold completeTask
    simp only [hf, hc, Bool.false_eq_true, if_false, hiv, if_true]
    omega

/-- Concrete instance of C10: on a fresh user, un-completing is a frame
no-op on the tallies, and completing twice around an un-completion counts
the application and the interview prep twice. -/
theorem uncompleteTask_frame_double_count_witness :
    (uncompleteTask [] (defaultUser "u2" "u2") 1).2.applicationsSubmitted =
      (defaultUser "u2" "u2").applicationsSubmitted ∧
    ([⟨1, "apply and interview", "internship", 3, false⟩] : List Task).find?
        (fun x => x.id == 1) =
      some ⟨1, "apply and interview", "internship", 3, false⟩ ∧
    (completeTask
        (toggleOnce [⟨1, "apply and interview", "internship", 3, false⟩]
          (defaultUser "u2" "u2") 1).1
        (toggleOnce [⟨1, "apply and interview", "internship", 3, false⟩]
          (defaultUser "u2" "u2") 1).2 1).2.applicationsSubmitted = 2 ∧
    (completeTask
        (toggleOnce [⟨1, "apply and interview", "internship", 3, false⟩]
          (defaultUser "u2" "u2") 1).1
        (toggleOnce [⟨1, "apply and interview", "internship", 3, false⟩]
          (defaultUser "u2" "u2") 1).2 1).2.interviewPrepsDone = 2 := by
  refine ⟨(uncompleteTask_frame_double_count.1 [] (defaultUser "u2" "u2") 1).1,
    by decide, ?_, ?_⟩
  · have h := uncompleteTask_frame_double_count.2.1
      [⟨1, "apply and interview", "internship", 3, false⟩]
      (defaultUser "u2" "u2") 1
      ⟨1, "apply and interview", "internship", 3, false⟩
      (by decide) rfl (by decide)
    exact h.trans (by decide)
  · have h := uncompleteTask_frame_double_count.2.2
      [⟨1, "apply and interview", "internship", 3, false⟩]
      (defaultUser "u2" "u2") 1
      ⟨1, "apply and interview", "internship", 3, false⟩
      (by decide) rfl (by decide)
    exact h.trans (by decide)

/-! ## Leaderboard — theorems -/

/-- Inserting above a head of smaller-or-equal key. -/
lemma insertDesc_cons_of_le (key : User → Int) (u v : User) (vs : List User)
    (h : key v ≤ key u) : insertDesc key u (v :: vs) = u :: v :: vs := by
  simp [insertDesc, h]

/-- Inserting above a list whose keys are all smaller-or-equal. -/
lemma insertDesc_eq_cons (key : User → Int) (u : User) (ws : List User)
    (h : ∀ w ∈ ws, key w ≤ key u) : insertDesc key u ws = u :: ws := by
  cases ws with
  | nil => rfl
  | cons w ws => simp [insertDesc, h w (List.mem_cons_self w ws)]

/-- Membership in an insertion. -/
lemma mem_insertDesc (key : User → Int) (u b : User) (l : List User) :
    b ∈ insertDesc key u l ↔ b = u ∨ b ∈ l := by
  induction l with
  | nil => simp [insertDesc]
  | cons v vs ih =>
    by_cases h : key v ≤ key u
    · simp [insertDesc, h]
    · simp [insertDesc, h, ih]
      tauto

/-- Insertion preserves descending order. -/
lemma insertDesc_pairwise (key : User → Int) (u : User) (l : List User)
    (hl : l.Pairwise (fun a b => key b ≤ key a)) :
    (insertDesc key u l).Pairwise (fun a b => key b ≤ key a) := by
  induction l with
  | nil => simp [insertDesc]
  | cons v vs ih =>
    rcases List.pairwise_cons.mp hl with ⟨hv, hvs⟩
    by_cases h : key v ≤ key u
    · rw [insertDesc_cons_of_le key u v vs h]
      refine List.pairwise_cons.mpr ⟨?_, hl⟩
      intro b hb
      rcases List.mem_cons.mp hb with rfl | hb
      · exact h
      · exact (hv b hb).trans h
    · simp only [insertDesc, if_neg h]
      refine List.pairwise_cons.mpr ⟨?_, ih hvs⟩
      intro b hb
      rcases (mem_insertDesc key u b vs).mp hb with rfl | hb
      · exact le_of_lt (not_le.mp h)
      · exact hv b hb

/-- The sort is descending. -/
lemma sortDesc_pairwise (key : User → Int) (l : List User) :
    (sortDesc key l).Pairwise (fun a b => key b ≤ key a) := by
  induction l with
  | nil => simp [sortDesc]
  | cons u us ih => exact insertDesc_pairwise key u _ ih

/-- Filtering commutes with insertion into a sorted list. -/
lemma filter_insertDesc (key : User → Int) (p : User → Bool) (u : User)
    (l : List User) (hl : l.Pairwise (fun a b => key b ≤ key a)) :
    (insertDesc key u l).filter p =
      if p u then insertDesc key u (l.filter p) else l.filter p := by
  induction l with
  | nil => by_cases h : p u <;> simp [insertDesc, h]
  | cons v vs ih =>
    rcases List.pairwise_cons.mp hl with ⟨hv, hvs⟩
    by_cases h : key v ≤ key u
    · rw [insertDesc_cons_of_le key u v vs h]
      by_cases hpu : p u
      · by_cases hpv : p v
        · simp [List.filter_cons, hpu, hpv, insertDesc, h]
        · have hins : insertDesc key u (vs.filter p) = u :: vs.filter p := by
            refine insertDesc_eq_cons key u _ ?_
            intro w hw
            exact (hv w (List.mem_of_mem_filter hw)).trans h
          simp [List.filter_cons, hpu, hpv, hins]
      · simp [List.filter_cons, hpu]
    · simp only [insertDesc, if_neg h]
      by_cases hpv : p v
      · by_cases hpu : p u
        · simp only [List.filter_cons, hpv, if_pos hpv, ih hvs, hpu, if_true]
          simp [insertDesc, h, hpu]
        · simp only [List.filter_cons, hpv, if_pos hpv, ih hvs, hpu,
            Bool.false_eq_true, if_false]
      · simp only [List.filter_cons, hpv, Bool.false_eq_true, if_false, ih hvs]

/-- Filtering commutes with the stable sort: sorting and then dropping the
non-positive entries equals dropping and then sorting. -/
lemma filter_sortDesc (key : User → Int) (p : User → Bool) (l : List User) :
    (sortDesc key l).filter p = sortDesc key (l.filter p) := by
  induction l with
  | nil => rfl
  | cons u us ih =>
    show (insertDesc key u (sortDesc key us)).filter p =
      sortDesc key ((u :: us).filter p)
    rw [filter_insertDesc key p u _ (sortDesc_pairwise key us), ih]
    by_cases h : p u <;> simp [List.filter_cons, h, sortDesc]

/-- **C8.** The leaderboard equals the spec's `rank`: the users with
positive metric value, sorted descending by the metric (stably), truncated
to `limit`; it is sorted, contains only positive values, has at most
`limit` entries, and on today-points `[30, 0, 10]` with limit 10 it is
exactly the two positive users in descending order. -/
theorem getLeaderboard_spec (users : List User) (type : String) (limit : Nat) :
    getLeaderboard users type limit = rankSpec users type limit ∧
    (getLeaderboard users type limit).Pairwise
      (fun a b => sortKeyOf type b ≤ sortKeyOf type a) ∧
    (∀ u ∈ getLeaderboard users type limit, 0 < sortKeyOf type u) ∧
    (getLeaderboard users type limit).length ≤ limit ∧
    getLeaderboard [demoUser "a" 30, demoUser "b" 0, demoUser "c" 10]
      "today" 10 = [demoUser "a" 30, demoUser "c" 10] := by
  refine ⟨?_, ?_, ?_, ?_, by decide⟩
  · unfold getLeaderboard rankSpec
    rw [filter_sortDesc]
  · exact List.Pairwise.sublist
      ((List.take_sublist _ _).trans (List.filter_sublist _))
      (sortDesc_pairwise _ _)
  · intro u hu
    have hu' := List.take_subset _ _ hu
    exact of_decide_eq_true (List.mem_filter.mp hu').2
  · exact List.length_take_le _ _

/-- Concrete instance of C8: the first-ranked user of the `[30, 0, 10]`
leaderboard is a member of the result, and its metric value is positive. -/
theorem getLeaderboard_spec_witness :
    demoUser "a" 30 ∈
      getLeaderboard [demoUser "a" 30, demoUser "b" 0, demoUser "c" 10]
        "today" 10 ∧
    0 < sortKeyOf "today" (demoUser "a" 30) :=
  ⟨by decide,
   (getLeaderboard_spec [demoUser "a" 30, demoUser "b" 0, demoUser "c" 10]
     "today" 10).2.2.1 (demoUser "a" 30) (by decide)⟩

/-! ## Teams — theorems -/

/-- Unfolding of `modifyAssoc` on a cons cell. -/
lemma modifyAssoc_cons {β : Type} (k0 : String) (f : β → β) (x : String)
    (y : β) (es : List (String × β)) :
    modifyAssoc k0 f ((x, y) :: es) =
      (if (x == k0) = true then (x, f y) else (x, y)) :: modifyAssoc k0 f es :=
  rfl

/-- A successful lookup is unchanged by appending. -/
lemma lookup_append_of_some {β : Type} (l l2 : List (String × β))
    (k : String) (v : β) (h : l.lookup k = some v) :
    (l ++ l2).lookup k = some v := by
  induction l with
  | nil => simp [List.lookup] at h
  | cons kv es ih =>
    obtain ⟨x, y⟩ := kv
    rw [List.cons_append]
    by_cases hk : (k == x) = true
    · simp only [List.lookup, hk] at h ⊢
      exact h
    · have hk' : (k == x) = false := by
        cases hkb : k == x
        · rfl
        · exact absurd hkb hk
      simp only [List.lookup, hk'] at h ⊢
      exact ih h

/-- Lookup after appending one fresh binding. -/
lemma lookup_append_single {β : Type} (l : List (String × β))
    (k a : String) (b : β) (h : l.lookup k = none) :
    (l ++ [(a, b)]).lookup k = if (k == a) = true then some b else none := by
  induction l with
  | nil =>
    cases hk : k == a <;> simp [List.lookup, hk]
  | cons kv es ih =>
    obtain ⟨x, y⟩ := kv
    rw [List.cons_append]
    cases hk : k == x
    · simp only [List.lookup, hk] at h ⊢
      exact ih h
    · simp only [List.lookup, hk] at h
      simp at h

/-- Lookup through an in-place modification of one key. -/
lemma lookup_modifyAssoc {β : Type} (k0 : String) (f : β → β)
    (l : List (String × β)) (k : String) :
    (modifyAssoc k0 f l).lookup k =
      if k = k0 then (l.lookup k).map f else l.lookup k := by
  induction l with
  | nil => by_cases h : k = k0 <;> simp [modifyAssoc, List.lookup, h]
  | cons kv es ih =>
    obtain ⟨x, y⟩ := kv
    rw [modifyAssoc_cons]
    cases hx : x == k0 with
    | true =>
      rw [if_pos rfl]
      have hx' : x = k0 := by simpa using hx
      cases hk : k == x with
      | true =>
        have hk' : k = x := by simpa using hk
        simp only [List.lookup, hk, Option.map_some']
        rw [if_pos (hk'.trans hx')]
      | false =>
        simp only [List.lookup, hk]
        exact ih
    | false =>
      simp only [Bool.false_eq_true, if_false]
      cases hk : k == x with
      | true =>
        have hk' : k = x := by simpa using hk
        have hx' : ¬ x = k0 := by
          intro hcontra
          rw [hcontra] at hx
          simp at hx
        have hkk0 : ¬ k = k0 := fun hcontra => hx' (hk'.symm.trans hcontra)
        simp only [List.lookup, hk]
        rw [if_neg hkk0]
      | false =>
        simp only [List.lookup, hk]
        exact ih

/-- Entries of an in-place modification come from entries of the source,
with the value transformed exactly under the addressed key. -/
lemma mem_modifyAssoc {β : Type} {k0 : String} {f : β → β}
    {l : List (String × β)} {e : String × β}
    (he : e ∈ modifyAssoc k0 f l) :
    ∃ e0 ∈ l, e.1 = e0.1 ∧
      ((e0.1 = k0 ∧ e.2 = f e0.2) ∨ (¬ e0.1 = k0 ∧ e.2 = e0.2)) := by
  obtain ⟨kv, hkv, heq⟩ := List.mem_map.mp he
  by_cases h : kv.1 = k0
  · have he' : e = (kv.1, f kv.2) := by rw [← heq]; simp [h]
    exact ⟨kv, hkv, by rw [he'], Or.inl ⟨h, by rw [he']⟩⟩
  · have he' : e = kv := by rw [← heq]; simp [h]
    exact ⟨kv, hkv, by rw [he'], Or.inr ⟨h, by rw [he']⟩⟩

/-- A recorded membership survives appending fresh user records. -/
lemma userInTeam_append (users l2 : List (String × User)) (m t : String)
    (h : userInTeam users m t = true) :
    userInTeam (users ++ l2) m t = true := by
  unfold userInTeam at h ⊢
  cases hl : users.lookup m with
  | none => simp [hl] at h
  | some u =>
    simp only [hl] at h
    simp only [lookup_append_of_some users l2 m u hl]
    exact h

/-- A recorded membership names a stored record pointing at that team. -/
lemma userInTeam_spec (users : List (String × User)) (m t : String)
    (h : userInTeam users m t = true) :
    ∃ u, users.lookup m = some u ∧ u.teamId = some t := by
  unfold userInTeam at h
  cases hl : users.lookup m with
  | none => simp [hl] at h
  | some u =>
    simp only [hl] at h
    exact ⟨u, rfl, by simpa using h⟩

/-- Membership queries about other users pass through `setUserTeam`. -/
lemma userInTeam_setUserTeam_ne (uid m t : String) (tidOpt : Option String)
    (users : List (String × User)) (hne : ¬ m = uid) :
    userInTeam (setUserTeam uid tidOpt users) m t = userInTeam users m t := by
  unfold userInTeam setUserTeam
  rw [lookup_modifyAssoc, if_neg hne]

/-- The addressed user's record names the new team after `setUserTeam`. -/
lemma userInTeam_setUserTeam_self (uid t : String)
    (users : List (String × User)) (u : User)
    (hl : users.lookup uid = some u) :
    userInTeam (setUserTeam uid (some t) users) uid t = true := by
  unfold userInTeam setUserTeam
  rw [lookup_modifyAssoc, if_pos rfl, hl]
  simp

/-- Where a member of a team entry after `removeMember` comes from: an
entry of the source with the same key, and never the removed user under
the addressed key. -/
lemma mem_members_removeMember {uid old : String}
    {ts : List (String × TeamRec)} {e : String × TeamRec} {m : String}
    (he : e ∈ removeMember uid old ts) (hm : m ∈ e.2.members) :
    ∃ e0 ∈ ts, e.1 = e0.1 ∧ m ∈ e0.2.members ∧ (e0.1 = old → ¬ m = uid) := by
  obtain ⟨e0, he0, h1, h2⟩ := mem_modifyAssoc he
  rcases h2 with ⟨hk, hv⟩ | ⟨hk, hv⟩
  · rw [hv] at hm
    have hmf := List.mem_filter.mp hm
    refine ⟨e0, he0, h1, hmf.1, fun _ => ?_⟩
    simpa using hmf.2
  · rw [hv] at hm
    exact ⟨e0, he0, h1, hm, fun hcontra => absurd hcontra hk⟩

/-- Where a member of a team entry after `pushMember` comes from: either
the pushed user under the addressed key, or an entry of the source. -/
lemma mem_members_pushMember {uid tid : String}
    {ts : List (String × TeamRec)} {e : String × TeamRec} {m : String}
    (he : e ∈ pushMember uid tid ts) (hm : m ∈ e.2.members) :
    (e.1 = tid ∧ m = uid) ∨ ∃ e0 ∈ ts, e.1 = e0.1 ∧ m ∈ e0.2.members := by
  obtain ⟨e0, he0, h1, h2⟩ := mem_modifyAssoc he
  rcases h2 with ⟨hk, hv⟩ | ⟨hk, hv⟩
  · rw [hv] at hm
    by_cases hin : uid ∈ e0.2.members
    · rw [if_pos hin] at hm
      exact Or.inr ⟨e0, he0, h1, hm⟩
    · rw [if_neg hin] at hm
      rcases List.mem_append.mp hm with hm' | hm'
      · exact Or.inr ⟨e0, he0, h1, hm'⟩
      · have : m = uid := by simpa using hm'
        exact Or.inl ⟨h1.trans hk, this⟩
  · rw [hv] at hm
    exact Or.inr ⟨e0, he0, h1, hm⟩

/-- Pushing the addressed user into the target team preserves consistency,
given a stored user record and a uid-free, consistent team list. -/
lemma consistent_after_push (uid tid : String)
    (U : List (String × User)) (T : List (String × TeamRec)) (u0 : User)
    (hU : U.lookup uid = some u0)
    (hT : ∀ e ∈ T, ∀ m ∈ e.2.members,
      ¬ m = uid ∧ userInTeam U m e.1 = true) :
    MembershipConsistent
      ⟨setUserTeam uid (some tid) U, pushMember uid tid T⟩ := by
  intro e he m hm
  show userInTeam (setUserTeam uid (some tid) U) m e.1 = true
  rcases mem_members_pushMember he hm with ⟨het, hmu⟩ | ⟨e0, he0, h1, hm0⟩
  · rw [hmu, het]
    exact userInTeam_setUserTeam_self uid tid U u0 hU
  · obtain ⟨hne, hin⟩ := hT e0 he0 m hm0
    rw [h1, userInTeam_setUserTeam_ne uid m e0.1 (some tid) U hne]
    exact hin

/-- Branch evaluation of `addUserToTeam`: unknown user, missing target. -/
lemma addUserToTeam_fresh_none (st : TeamsState) (uid tid : String)
    (hlu : st.users.lookup uid = none)
    (hlt : st.teams.lookup tid = none) :
    addUserToTeam st uid tid =
      { st with users := st.users ++ [(uid, defaultUser uid uid)] } := by
  unfold addUserToTeam getOrCreateUser
  simp only [hlu, defaultUser, hlt]

/-- Branch evaluation of `addUserToTeam`: unknown user, existing target. -/
lemma addUserToTeam_fresh_some (st : TeamsState) (uid tid : String)
    (r : TeamRec) (hlu : st.users.lookup uid = none)
    (hlt : st.teams.lookup tid = some r) :
    addUserToTeam st uid tid =
      ⟨setUserTeam uid (some tid) (st.users ++ [(uid, defaultUser uid uid)]),
       pushMember uid tid st.teams⟩ := by
  unfold addUserToTeam getOrCreateUser
  simp only [hlu, defaultUser, hlt]

/-- Branch evaluation of `addUserToTeam`: known user with no team,
missing target. -/
lemma addUserToTeam_known_none_none (st : TeamsState) (uid tid : String)
    (u : User) (hlu : st.users.lookup uid = some u)
    (hti : u.teamId = none) (hlt : st.teams.lookup tid = none) :
    addUserToTeam st uid tid = { st with users := st.users } := by
  unfold addUserToTeam getOrCreateUser
  simp only [hlu, hti, hlt]

/-- Branch evaluation of `addUserToTeam`: known user with no team,
existing target. -/
lemma addUserToTeam_known_none_some (st : TeamsState) (uid tid : String)
    (u : User) (r : TeamRec) (hlu : st.users.lookup uid = some u)
    (hti : u.teamId = none) (hlt : st.teams.lookup tid = some r) :
    addUserToTeam st uid tid =
      ⟨setUserTeam uid (some tid) st.users, pushMember uid tid st.teams⟩ := by
  unfold addUserToTeam getOrCreateUser
  simp only [hlu, hti, hlt]

/-- Branch evaluation of `addUserToTeam`: known user with a previous team,
missing target (note the early return drops the in-memory removal). -/
lemma addUserToTeam_known_some_none (st : TeamsState) (uid tid : String)
    (u : User) (old : String) (hlu : st.users.lookup uid = some u)
    (hti : u.teamId = some old)
    (hlt : (removeMember uid old st.teams).lookup tid = none) :
    addUserToTeam st uid tid = { st with users := st.users } := by
  unfold addUserToTeam getOrCreateUser
  simp only [hlu, hti, hlt]

/-- Branch evaluation of `addUserToTeam`: known user with a previous team,
existing target. -/
lemma addUserToTeam_known_some_some (st : TeamsState) (uid tid : String)
    (u : User) (old : String) (r : TeamRec)
    (hlu : st.users.lookup uid = some u) (hti : u.teamId = some old)
    (hlt : (removeMember uid old st.teams).lookup tid = some r) :
    addUserToTeam st uid tid =
      ⟨setUserTeam uid (some tid) st.users,
       pushMember uid tid (removeMember uid old st.teams)⟩ := by
  unfold addUserToTeam getOrCreateUser
  simp only [hlu, hti, hlt]

/-- Branch evaluation of `removeUserFromTeam`: unknown user. -/
lemma removeUserFromTeam_fresh (st : TeamsState) (uid : String)
    (hlu : st.users.lookup uid = none) :
    removeUserFromTeam st uid =
      { st with users := st.users ++ [(uid, defaultUser uid uid)] } := by
  unfold removeUserFromTeam getOrCreateUser
  simp only [hlu, defaultUser]

/-- Branch evaluation of `removeUserFromTeam`: known user, no team. -/
lemma removeUserFromTeam_known_none (st : TeamsState) (uid : String)
    (u : User) (hlu : st.users.lookup uid = some u)
    (hti : u.teamId = none) :
    removeUserFromTeam st uid = { st with users := st.users } := by
  unfold removeUserFromTeam getOrCreateUser
  simp only [hlu, hti]

/-- Branch evaluation of `removeUserFromTeam`: known user with a team. -/
lemma removeUserFromTeam_known_some (st : TeamsState) (uid : String)
    (u : User) (old : String) (hlu : st.users.lookup uid = some u)
    (hti : u.teamId = some old) :
    removeUserFromTeam st uid =
      ⟨setUserTeam uid none st.users, removeMember uid old st.teams⟩ := by
  unfold removeUserFromTeam getOrCreateUser
  simp only [hlu, hti]

/-- `addUserToTeam` preserves membership consistency. -/
lemma consistent_addUserToTeam (st : TeamsState) (uid tid : String)
    (h : MembershipConsistent st) :
    MembershipConsistent (addUserToTeam st uid tid) := by
  cases hlu : st.users.lookup uid with
  | none =>
    cases hlt : st.teams.lookup tid with
    | none =>
      rw [addUserToTeam_fresh_none st uid tid hlu hlt]
      intro e he m hm
      exact userInTeam_append _ _ _ _ (h e he m hm)
    | some r =>
      rw [addUserToTeam_fresh_some st uid tid r hlu hlt]
      refine consistent_after_push uid tid _ _ (defaultUser uid uid) ?_ ?_
      · rw [lookup_append_single st.users uid uid (defaultUser uid uid) hlu]
        simp
      · intro e he m hm
        have hin := h e he m hm
        refine ⟨?_, userInTeam_append _ _ _ _ hin⟩
        intro hcontra
        obtain ⟨w, hw, -⟩ := userInTeam_spec _ _ _ hin
        rw [hcontra, hlu] at hw
        exact Option.noConfusion hw
  | some u =>
    cases hti : u.teamId with
    | none =>
      cases hlt : st.teams.lookup tid with
      | none =>
        rw [addUserToTeam_known_none_none st uid tid u hlu hti hlt]
        exact h
      | some r =>
        rw [addUserToTeam_known_none_some st uid tid u r hlu hti hlt]
        refine consistent_after_push uid tid _ _ u hlu ?_
        intro e he m hm
        have hin := h e he m hm
        refine ⟨?_, hin⟩
        intro hcontra
        obtain ⟨w, hw, hwt⟩ := userInTeam_spec _ _ _ hin
        rw [hcontra, hlu] at hw
        have hwu : u = w := Option.some.inj hw
        rw [← hwu, hti] at hwt
        exact Option.noConfusion hwt
    | some old =>
      cases hlt : (removeMember uid old st.teams).lookup tid with
      | none =>
        rw [addUserToTeam_known_some_none st uid tid u old hlu hti hlt]
        exact h
      | some r =>
        rw [addUserToTeam_known_some_some st uid tid u old r hlu hti hlt]
        refine consistent_after_push uid tid _ _ u hlu ?_
        intro e he m hm
        obtain ⟨e0, he0, h1, hm0, hold⟩ := mem_members_removeMember he hm
        have hin := h e0 he0 m hm0
        have hne : ¬ m = uid := by
          intro hcontra
          obtain ⟨w, hw, hwt⟩ := userInTeam_spec _ _ _ hin
          rw [hcontra, hlu] at hw
          have hwu : u = w := Option.some.inj hw
          rw [← hwu, hti] at hwt
          exact hold (Option.some.inj hwt).symm hcontra
        rw [h1]
        exact ⟨hne, hin⟩

/-- `removeUserFromTeam` preserves membership consistency. -/
lemma consistent_removeUserFromTeam (st : TeamsState) (uid : String)
    (h : MembershipConsistent st) :
    MembershipConsistent (removeUserFromTeam st uid) := by
  cases hlu : st.users.lookup uid with
  | none =>
    rw [removeUserFromTeam_fresh st uid hlu]
    intro e he m hm
    exact userInTeam_append _ _ _ _ (h e he m hm)
  | some u =>
    cases hti : u.teamId with
    | none =>
      rw [removeUserFromTeam_known_none st uid u hlu hti]
      exact h
    | some old =>
      rw [removeUserFromTeam_known_some st uid u old hlu hti]
      intro e he m hm
      show userInTeam (setUserTeam uid none st.users) m e.1 = true
      obtain ⟨e0, he0, h1, hm0, hold⟩ := mem_members_removeMember he hm
      have hin := h e0 he0 m hm0
      have hne : ¬ m = uid := by
        intro hcontra
        obtain ⟨w, hw, hwt⟩ := userInTeam_spec _ _ _ hin
        rw [hcontra, hlu] at hw
        have hwu : u = w := Option.some.inj hw
        rw [← hwu, hti] at hwt
        exact hold (Option.some.inj hwt).symm hcontra
      rw [h1, userInTeam_setUserTeam_ne uid m e0.1 none st.users hne]
      exact hin

/-- Consistency rules out double membership. -/
lemma noDouble_of_consistent (st : TeamsState)
    (h : MembershipConsistent st) : NoDoubleMembership st := by
  intro e1 he1 e2 he2 hne m hm1 hm2
  obtain ⟨w1, hw1, ht1⟩ := userInTeam_spec _ _ _ (h e1 he1 m hm1)
  obtain ⟨w2, hw2, ht2⟩ := userInTeam_spec _ _ _ (h e2 he2 m hm2)
  rw [hw1] at hw2
  have hw : w1 = w2 := Option.some.inj hw2
  rw [hw, ht2] at ht1
  exact hne (Option.some.inj ht1).symm

/-- **C9 counterexample.**  Two `createTeam` calls by the same user leave
that user in the member lists of two distinct teams: `createTeam` inserts
the creator without removing prior membership (and without recording the
new one on the user record). -/
theorem createTeam_double_membership_counterexample :
    ¬ NoDoubleMembership
      (applyOps ⟨[], []⟩
        [TeamOp.create "alpha" "Alpha" "u1",
         TeamOp.create "beta" "Beta" "u1"]) := by
  intro hnd
  exact hnd ("alpha", ⟨"alpha", "Alpha", ["u1"], 0, 0⟩) (by decide)
    ("beta", ⟨"beta", "Beta", ["u1"], 0, 0⟩) (by decide)
    (by decide) "u1" (by decide) (by decide)

/-- **C9** (amended).  `addUserToTeam` does remove the prior membership the
user's record names, so along every sequence of join and leave operations
from membership-consistent stores (for example empty ones) no user ever
appears in two distinct teams' member lists; `createTeam`, however,
inserts the creator without removing or recording membership, and
sequences containing it can violate the property (see the
counterexample). -/
theorem joinLeave_no_double_membership (st : TeamsState) (ops : List TeamOp)
    (hst : MembershipConsistent st)
    (hops : ∀ op ∈ ops, op.isCreate = false) :
    MembershipConsistent (applyOps st ops) ∧
    NoDoubleMembership (applyOps st ops) := by
  have main : ∀ (l : List TeamOp) (s : TeamsState), MembershipConsistent s →
      (∀ op ∈ l, op.isCreate = false) → MembershipConsistent (applyOps s l) := by
    intro l
    induction l with
    | nil => exact fun s hs _ => hs
    | cons op ops' ih =>
      intro s hs hl
      have hop := hl op (List.mem_cons_self op ops')
      have hrest : ∀ o ∈ ops', o.isCreate = false :=
        fun o ho => hl o (List.mem_cons_of_mem op ho)
      show MembershipConsistent (applyOps (applyOp s op) ops')
      refine ih (applyOp s op) ?_ hrest
      cases op with
      | create tid tname c => simp [TeamOp.isCreate] at hop
      | join uid tid => exact consistent_addUserToTeam s uid tid hs
      | leave uid => exact consistent_removeUserFromTeam s uid hs
  exact ⟨main ops st hst hops, noDouble_of_consistent _ (main ops st hst hops)⟩

/-- Concrete instance of amended C9: from a consistent one-team store, a
join by a newcomer followed by the old member leaving keeps every user in
at most one team. -/
theorem joinLeave_no_double_membership_witness :
    MembershipConsistent
      (⟨[("v", { defaultUser "v" "v" with teamId := some "alpha" })],
        [("alpha", ⟨"alpha", "Alpha", ["v"], 0, 0⟩)]⟩ : TeamsState) ∧
    (∀ op ∈ [TeamOp.join "u" "alpha", TeamOp.leave "v"],
      op.isCreate = false) ∧
    NoDoubleMembership
      (applyOps
        ⟨[("v", { defaultUser "v" "v" with teamId := some "alpha" })],
         [("alpha", ⟨"alpha", "Alpha", ["v"], 0, 0⟩)]⟩
        [TeamOp.join "u" "alpha", TeamOp.leave "v"]) := by
  refine ⟨by decide, by decide, ?_⟩
  exact (joinLeave_no_double_membership
    ⟨[("v", { defaultUser "v" "v" with teamId := some "alpha" })],
     [("alpha", ⟨"alpha", "Alpha", ["v"], 0, 0⟩)]⟩
    [TeamOp.join "u" "alpha", TeamOp.leave "v"]
    (by decide) (by decide)).2

end InternBot
